import Mathlib

/-!
Verification of the registry-cleanup script `manage/delete-registry-image.py`
against its natural-language specification.

The development shallowly embeds the script:
* the retention decision inlined in `process_repository` (lines 153-164)
  becomes the pure function `retentionPlan`;
* the timestamp normalization in `fetch_creation_date` (lines 84-86)
  becomes `parseCreatedChars` together with a model of Python's
  `datetime.fromisoformat` (Python >= 3.11 semantics);
* the HTTP / subprocess / filesystem effects of the orchestrator become
  explicit state passing over a `Registry` oracle, producing a trace of
  `Event`s, with Python exceptions modelled by `Except`.

Timestamps are modelled as integers (microseconds relative to an arbitrary
epoch): Python compares timezone-aware `datetime` values by absolute time,
and `timedelta(days = d)` is exactly `d * 86400000000` microseconds.
-/

/-- One resolved tag: the element `(tag, creation_date, digest)` that
`process_repository` appends to `tag_details` (line 147). -/
structure TagDetail where
  tag : String
  creation : Int
  digest : String
deriving DecidableEq, Repr

/-- The retention decision for one resolved tag: the tag together with its
deletion mark, as computed by the loop at lines 158-164. -/
structure RetentionDecision where
  tag : String
  creation : Int
  digest : String
  delete : Bool
deriving DecidableEq, Repr

/-- Line 153: `tag_details.sort(key=lambda x: x[1], reverse=True)`.
Python `list.sort` is a stable sort; with `reverse=True` it orders by
strictly descending key, equal keys keeping their input order.  A stable
sort is uniquely determined by its comparison, so Mathlib's stable
`insertionSort` with the total preorder "b.creation <= a.creation" computes
exactly this result. -/
def sortDetails (details : List TagDetail) : List TagDetail :=
  List.insertionSort (fun a b => b.creation ≤ a.creation) details

/-- Line 154: `recent_tags = {tag for tag, _, _ in tag_details[:recent_count]}`,
taken after the sort. -/
def recentTags (details : List TagDetail) (rc : Nat) : List String :=
  ((sortDetails details).take rc).map TagDetail.tag

/-- Lines 153-164: the pure retention decision.  After the descending sort,
an entry is marked for deletion iff its tag is not in `recent_tags`
(line 159 `continue`) and `creation_date < threshold_date` (line 162). -/
def retentionPlan (details : List TagDetail) (rc : Nat) (thr : Int) :
    List RetentionDecision :=
  (sortDetails details).map fun x =>
    ⟨x.tag, x.creation, x.digest,
      if x.tag ∈ recentTags details rc then false else decide (x.creation < thr)⟩

/-- The tags of the protected set: the first `recent_count` entries of the
descending sort (line 154). -/
def protectedTags (details : List TagDetail) (rc : Nat) : List String :=
  recentTags details rc

/-- The tags eligible for deletion: the entries whose tag is not protected,
i.e. exactly those that pass the `if tag in recent_tags: continue` guard at
line 159 and reach the age comparison at line 162. -/
def eligibleForDeletionTags (details : List TagDetail) (rc : Nat) : List String :=
  ((sortDetails details).filter
    (fun x => !(decide (x.tag ∈ protectedTags details rc)))).map TagDetail.tag

/-! ### Timestamp normalization and parsing (`fetch_creation_date`, lines 76-87)

The script normalizes the `created` field of a config blob with

    fixed_date = re.sub(r'(?<=\+\d{2}):(\d)$', r'0\1', created_date[:-1])
    dt = datetime.fromisoformat(fixed_date)
    return dt if dt.tzinfo else dt.replace(tzinfo=timezone.utc)

i.e. it unconditionally drops the final character, rewrites a trailing
`+HH:M` (single offset-minute digit) into `+HH0M`, parses the result with
`datetime.fromisoformat`, and replaces a missing timezone by UTC.
`fromisoformat` raises `ValueError` on an unparseable string, modelled here
by `none`.  The `fromisoformat` model follows CPython >= 3.11 on the
extended (dashed/colon) ISO-8601 format: `YYYY-MM-DD`, optionally followed
by a single separator character and `HH[:MM[:SS[.ffffff]]]`, optionally
followed by an offset `Z`, `+HH`, `-HH`, `+HH:MM`, `-HH:MM`, `+HHMM` or
`-HHMM`; fields are range-checked (calendar-valid date, hour <= 23,
minute/second <= 59, offset hour <= 23, offset minute <= 59). -/

/-- A parsed `datetime` value: calendar fields plus an optional timezone
offset in minutes (`none` = naive). -/
structure PyDatetime where
  year : Nat
  month : Nat
  day : Nat
  hour : Nat
  minute : Nat
  second : Nat
  micro : Nat
  tz : Option Int
deriving DecidableEq, Repr

/-- Two decimal digit characters, returning their value and the rest. -/
def parse2 : List Char → Option (Nat × List Char)
  | c1 :: c2 :: rest =>
    if c1.isDigit && c2.isDigit then
      some ((c1.toNat - 48) * 10 + (c2.toNat - 48), rest)
    else none
  | _ => none

/-- Four decimal digit characters, returning their value and the rest. -/
def parse4 : List Char → Option (Nat × List Char)
  | c1 :: c2 :: c3 :: c4 :: rest =>
    if c1.isDigit && c2.isDigit && c3.isDigit && c4.isDigit then
      some (((c1.toNat - 48) * 1000 + (c2.toNat - 48) * 100 +
        (c3.toNat - 48) * 10 + (c4.toNat - 48)), rest)
    else none
  | _ => none

/-- Leap years of the proleptic Gregorian calendar. -/
def isLeapYear (y : Nat) : Bool :=
  (y % 4 == 0 && y % 100 != 0) || y % 400 == 0

/-- Number of days in a month. -/
def daysInMonth (y mo : Nat) : Nat :=
  if mo = 2 then (if isLeapYear y then 29 else 28)
  else if mo = 4 ∨ mo = 6 ∨ mo = 9 ∨ mo = 11 then 30 else 31

/-- Offset digits after the sign: `HH`, `HH:MM` or `HHMM`, all consumed to
the end of the string; offset in minutes. -/
def parseOffsetTail (sign : Int) (cs : List Char) : Option Int :=
  match parse2 cs with
  | none => none
  | some (hh, rest) =>
    match rest with
    | [] => if hh ≤ 23 then some (sign * (hh * 60)) else none
    | ':' :: rest2 =>
      match parse2 rest2 with
      | some (mm, []) =>
        if hh ≤ 23 ∧ mm ≤ 59 then some (sign * ((hh : Int) * 60 + mm)) else none
      | _ => none
    | _ =>
      match parse2 rest with
      | some (mm, []) =>
        if hh ≤ 23 ∧ mm ≤ 59 then some (sign * ((hh : Int) * 60 + mm)) else none
      | _ => none

/-- The timezone suffix: empty (naive), `Z`, or a signed offset. -/
def parseOffset : List Char → Option (Option Int)
  | [] => some none
  | ['Z'] => some (some 0)
  | '+' :: rest => (parseOffsetTail 1 rest).map some
  | '-' :: rest => (parseOffsetTail (-1) rest).map some
  | _ => none

/-- Parsed time-of-day: hour, minute, second, microsecond, offset. -/
def TimeParts : Type := Nat × Nat × Nat × Nat × Option Int

/-- Range-check the time fields and parse the remaining characters as the
timezone suffix. -/
def finishTime (hh mi ss micro : Nat) (cs : List Char) : Option TimeParts :=
  match parseOffset cs with
  | none => none
  | some tz => if hh ≤ 23 ∧ mi ≤ 59 ∧ ss ≤ 59 then some (hh, mi, ss, micro, tz) else none

/-- Value in microseconds of a fractional-second digit string (CPython
truncates beyond six digits). -/
def fracValue (ds : List Char) : Nat :=
  ((ds.take 6).foldl (fun a c => a * 10 + (c.toNat - 48)) 0) * 10 ^ (6 - (ds.take 6).length)

/-- Fractional seconds: at least one digit, then the timezone suffix. -/
def parseFracTail (hh mi ss : Nat) (cs : List Char) : Option TimeParts :=
  match cs.takeWhile Char.isDigit with
  | [] => none
  | ds => finishTime hh mi ss (fracValue ds) (cs.dropWhile Char.isDigit)

/-- After `HH:MM:SS`: optional fractional seconds, then the suffix. -/
def parseSecTail (hh mi ss : Nat) : List Char → Option TimeParts
  | '.' :: r => parseFracTail hh mi ss r
  | ',' :: r => parseFracTail hh mi ss r
  | cs => finishTime hh mi ss 0 cs

/-- The time-of-day part `HH[:MM[:SS[.ffffff]]]` plus suffix. -/
def parseTime (cs : List Char) : Option TimeParts :=
  match parse2 cs with
  | none => none
  | some (hh, rest) =>
    match rest with
    | ':' :: r =>
      match parse2 r with
      | none => none
      | some (mi, r2) =>
        match r2 with
        | ':' :: r3 =>
          match parse2 r3 with
          | none => none
          | some (ss, r4) => parseSecTail hh mi ss r4
        | _ => finishTime hh mi 0 0 r2
    | _ => finishTime hh 0 0 0 rest

/-- Model of `datetime.fromisoformat` (CPython >= 3.11, extended format):
`none` models a raised `ValueError`. -/
def fromisoChars (cs : List Char) : Option PyDatetime :=
  match parse4 cs with
  | none => none
  | some (y, rest) =>
    match rest with
    | '-' :: r1 =>
      match parse2 r1 with
      | some (mo, '-' :: r2) =>
        match parse2 r2 with
        | some (d, r3) =>
          if 1 ≤ y ∧ 1 ≤ mo ∧ mo ≤ 12 ∧ 1 ≤ d ∧ d ≤ daysInMonth y mo then
            match r3 with
            | [] => some ⟨y, mo, d, 0, 0, 0, 0, none⟩
            | _ :: r4 =>
              (parseTime r4).map fun t =>
                ⟨y, mo, d, t.1, t.2.1, t.2.2.1, t.2.2.2.1, t.2.2.2.2⟩
          else none
        | _ => none
      | _ => none
    | _ => none

/-- The substitution `re.sub(r'(?<=\+\d{2}):(\d)$', r'0\1', s)` (line 84),
acting on the reversed character list: a final `+DD:D` becomes `+DD0D`. -/
def fixOffsetRev (cs : List Char) : List Char :=
  match cs with
  | m :: c :: d2 :: d1 :: p :: rest =>
    if m.isDigit && c == ':' && d2.isDigit && d1.isDigit && p == '+' then
      m :: '0' :: d2 :: d1 :: '+' :: rest
    else m :: c :: d2 :: d1 :: p :: rest
  | cs => cs

/-- The substitution of line 84, on a character list in reading order. -/
def fixOffsetChars (cs : List Char) : List Char :=
  (fixOffsetRev cs.reverse).reverse

/-- Lines 84-86 of `fetch_creation_date` on a character list: drop the
final character (`created_date[:-1]`), apply the offset fix-up, parse, and
interpret a naive result as UTC. -/
def parseCreatedChars (cs : List Char) : Option PyDatetime :=
  match fromisoChars (fixOffsetChars cs.dropLast) with
  | none => none
  | some dt => some (if dt.tz.isSome then dt else { dt with tz := some 0 })

/-- Lines 84-86 of `fetch_creation_date` on a string. -/
def parseCreatedDate (s : String) : Option PyDatetime :=
  parseCreatedChars s.data

/-- Whether a string ends in the pattern `+DD:D` targeted by the regular
expression of line 84 (the "malformed single-trailing-digit minute"). -/
def endsWithSingleDigitMinute (s : String) : Bool :=
  match s.data.reverse with
  | m :: c :: d2 :: d1 :: p :: _ =>
    m.isDigit && c == ':' && d2.isDigit && d1.isDigit && p == '+'
  | _ => false

/-- Whether a string ends in `Z`. -/
def endsWithZ (s : String) : Bool :=
  s.data.getLast? == some 'Z'

/-! Zero-padded decimal formatting, used to quantify over well-formed
ISO-8601 timestamp strings. -/

/-- The decimal digit character for `k < 10` (and `9` above). -/
def digitChar : Nat → Char
  | 0 => '0'
  | 1 => '1'
  | 2 => '2'
  | 3 => '3'
  | 4 => '4'
  | 5 => '5'
  | 6 => '6'
  | 7 => '7'
  | 8 => '8'
  | _ => '9'

/-- Two-digit zero-padded decimal representation of `n <= 99`. -/
def pad2 (n : Nat) : List Char :=
  [digitChar (n / 10), digitChar (n % 10)]

/-- Four-digit zero-padded decimal representation of `n <= 9999`. -/
def pad4 (n : Nat) : List Char :=
  [digitChar (n / 1000), digitChar (n / 100 % 10), digitChar (n / 10 % 10),
    digitChar (n % 10)]

/-- The characters of the well-formed timestamp
`YYYY-MM-DDTHH:MM:SS` (no fraction, no timezone suffix). -/
def isoBasicChars (y mo d hh mi ss : Nat) : List Char :=
  pad4 y ++ '-' :: (pad2 mo ++ '-' :: (pad2 d ++ 'T' ::
    (pad2 hh ++ ':' :: (pad2 mi ++ ':' :: pad2 ss))))

/-! ### Orchestrator model

HTTP responses, the garbage-collection subprocess and the filesystem are
modelled by a `Registry` oracle; every external call appends an `Event` to
a trace, and a raised Python exception is an `Except.error`.  `main`
(lines 170-178) catches every exception at top level. -/

/-- Day number of a proleptic-Gregorian civil date (days since 1970-01-01,
Howard Hinnant's `days_from_civil`, matching Python `datetime`'s ordinal
arithmetic). -/
def daysFromCivil (y m d : Int) : Int :=
  let y2 := if m ≤ 2 then y - 1 else y
  let era : Int := (if 0 ≤ y2 then y2 else y2 - 399) / 400
  let yoe := y2 - era * 400
  let mp := (m + 9) % 12
  let doy := (153 * mp + 2) / 5 + d - 1
  let doe := yoe * 365 + yoe / 4 - yoe / 100 + doy
  era * 146097 + doe - 719468

/-- Absolute time of an aware datetime in microseconds since the epoch:
Python compares timezone-aware `datetime` values by exactly this number. -/
def PyDatetime.toEpochMicro (dt : PyDatetime) : Int :=
  (daysFromCivil dt.year dt.month dt.day * 86400 +
    dt.hour * 3600 + dt.minute * 60 + dt.second -
    dt.tz.getD 0 * 60) * 1000000 + dt.micro

/-- A raised Python exception: `requests.raise_for_status` (`httpError`) or
`datetime.fromisoformat` (`parseError`). -/
inductive PyErr
  | httpError
  | parseError
deriving DecidableEq, Repr

/-- The configuration loaded at startup (lines 23-40): exclusion list,
global defaults, and the two per-repository override tables. -/
structure Config where
  exclude : List String
  defaultRecent : Nat
  defaultDays : Nat
  specificRecent : String → Option Nat
  specificDays : String → Option Nat

/-- The external world: one oracle per kind of call.  `none` on
`catalogResp` / `tagsResp` / `manifestResp` / `blobResp` models a
non-success HTTP response (or a missing field that makes the response
unusable); `deleteStatus` is the HTTP status of a `DELETE` request;
`gcOk` is the garbage-collection subprocess's exit status; `dirExists`
models `os.path.exists` under `REPOSITORY_PATH`. -/
structure Registry where
  catalogResp : Option (List String)
  tagsResp : String → Option (List String)
  manifestResp : String → String → Option (String × String)
  blobResp : String → String → Option (Option String)
  deleteStatus : String → String → Nat
  gcOk : Bool
  dirExists : String → Bool

/-- One observable external action of a run. -/
inductive Event
  | fetchCatalog
  | fetchTags (repo : String)
  | fetchManifest (repo tag : String)
  | fetchBlob (repo digest : String)
  | deleteManifest (repo tag digest : String)
  | logDeleted (repo tag digest : String)
  | gc
  | logGcDone
  | logGcFailed
  | removeDir (repo : String)
deriving DecidableEq, Repr

/-- Lines 51-54: `GET /v2/_catalog`; `raise_for_status` raises on a
non-success response. -/
def fetch_repositories (reg : Registry) :
    Except PyErr (List String) × List Event :=
  (match reg.catalogResp with
   | some repos => .ok repos
   | none => .error .httpError,
   [.fetchCatalog])

/-- Lines 56-60: `GET /v2/{repo}/tags/list`; any non-200 status yields the
empty list (never an error). -/
def fetch_image_tags (reg : Registry) (repo : String) :
    List String × List Event :=
  (match reg.tagsResp repo with
   | some ts => ts
   | none => [],
   [.fetchTags repo])

/-- Lines 76-87 as an operation: fetch the config blob and parse its
`created` field.  A non-200 response or a missing/empty `created` field
yields `none` (the tag is skipped); an unparseable `created` string raises
`ValueError`. -/
def fetch_creation_date (reg : Registry) (repo cfgDigest : String) :
    Except PyErr (Option PyDatetime) × List Event :=
  (match reg.blobResp repo cfgDigest with
   | none => .ok none
   | some none => .ok none
   | some (some created) =>
     if created = "" then .ok none
     else
       match parseCreatedDate created with
       | none => .error .parseError
       | some dt => .ok (some dt),
   [.fetchBlob repo cfgDigest])

/-- Lines 137-147: the resolution loop of `process_repository`.  For each
tag: fetch the manifest (line 62-74; an unusable response — non-200,
missing `Docker-Content-Digest`, missing config digest — skips the tag),
then fetch and parse the creation date (skipping the tag when it is
unavailable, raising when it is unparseable). -/
def resolveTags (reg : Registry) (repo : String) :
    List String → Except PyErr (List TagDetail) × List Event
  | [] => (.ok [], [])
  | t :: ts =>
    match reg.manifestResp repo t with
    | none =>
      let r := resolveTags reg repo ts
      (r.1, .fetchManifest repo t :: r.2)
    | some (digest, cfgDigest) =>
      if digest = "" ∨ cfgDigest = "" then
        let r := resolveTags reg repo ts
        (r.1, .fetchManifest repo t :: r.2)
      else
        match fetch_creation_date reg repo cfgDigest with
        | (.error er, e2) => (.error er, .fetchManifest repo t :: e2)
        | (.ok none, e2) =>
          let r := resolveTags reg repo ts
          (r.1, .fetchManifest repo t :: (e2 ++ r.2))
        | (.ok (some dt), e2) =>
          let r := resolveTags reg repo ts
          (match r.1 with
           | .error er => .error er
           | .ok rest => .ok (⟨t, dt.toEpochMicro, digest⟩ :: rest),
           .fetchManifest repo t :: (e2 ++ r.2))

/-- Lines 157-164: the deletion loop over the retention plan, in sorted
order.  `delete_image` (lines 89-94) issues the `DELETE` and logs success
only on status 202; `deleted_count` is incremented after every attempted
deletion, whatever the status. -/
def deleteLoop (reg : Registry) (repo : String) :
    List RetentionDecision → Nat × List Event
  | [] => (0, [])
  | d :: ds =>
    let r := deleteLoop reg repo ds
    if d.delete then
      (r.1 + 1,
        .deleteManifest repo d.tag d.digest ::
          ((if reg.deleteStatus repo d.digest = 202 then
              [.logDeleted repo d.tag d.digest] else []) ++ r.2))
    else (r.1, r.2)

/-- Lines 125-167: `process_repository`.  Returns the final
`deleted_count` (0 on the early exits) or the raised exception, together
with the trace. -/
def process_repository (cfg : Config) (reg : Registry) (now : Int)
    (repo : String) : Except PyErr Nat × List Event :=
  if repo ∈ cfg.exclude then (.ok 0, [])
  else
    let ft := fetch_image_tags reg repo
    if ft.1 = [] then (.ok 0, ft.2)
    else
      match resolveTags reg repo ft.1 with
      | (.error er, e2) => (.error er, ft.2 ++ e2)
      | (.ok details, e2) =>
        if details = [] then (.ok 0, ft.2 ++ e2)
        else
          let rc := (cfg.specificRecent repo).getD cfg.defaultRecent
          let days := (cfg.specificDays repo).getD cfg.defaultDays
          let thr := now - (days : Int) * 86400000000
          let dl := deleteLoop reg repo (retentionPlan details rc thr)
          (.ok dl.1, ft.2 ++ e2 ++ dl.2)

/-- Lines 172-174: the repository loop of `main`; a raised exception
aborts the loop (it propagates to the `except` of line 177). -/
def processAll (cfg : Config) (reg : Registry) (now : Int) :
    List String → Except PyErr Unit × List Event
  | [] => (.ok (), [])
  | r :: rs =>
    match process_repository cfg reg now r with
    | (.error er, e) => (.error er, e)
    | (.ok _, e) =>
      let rest := processAll cfg reg now rs
      (rest.1, e ++ rest.2)

/-- Lines 97-106: `run_garbage_collection` invokes the external command
and catches its failure internally, logging either way — it never
raises. -/
def run_garbage_collection (reg : Registry) : List Event :=
  if reg.gcOk then [.gc, .logGcDone] else [.gc, .logGcFailed]

/-- Lines 112-122: the loop of `remove_empty_repositories`: any repository
whose tag list comes back empty (including on a failed listing) has its
directory forcibly removed when it exists. -/
def sweepRepos (reg : Registry) : List String → List Event
  | [] => []
  | r :: rs =>
    let ft := fetch_image_tags reg r
    ft.2 ++
      (if ft.1 = [] then
        (if reg.dirExists r then [.removeDir r] else [])
       else []) ++
      sweepRepos reg rs

/-- Lines 109-122: `remove_empty_repositories` re-lists the catalog (a
failure there raises out of the function) and sweeps every listed
repository. -/
def remove_empty_repositories (reg : Registry) :
    Except PyErr Unit × List Event :=
  match fetch_repositories reg with
  | (.error er, e0) => (.error er, e0)
  | (.ok repos, e0) => (.ok (), e0 ++ sweepRepos reg repos)

/-- Lines 170-178: `main`.  The catch-all `except` absorbs any raised
exception, so the run's observable behaviour is just its trace. -/
def mainRun (cfg : Config) (reg : Registry) (now : Int) : List Event :=
  match fetch_repositories reg with
  | (.error _, e0) => e0
  | (.ok repos, e0) =>
    match processAll cfg reg now repos with
    | (.error _, e1) => e0 ++ e1
    | (.ok _, e1) =>
      e0 ++ e1 ++ run_garbage_collection reg ++
        (remove_empty_repositories reg).2

/-! ### Concrete configurations and registries for closed statements -/

/-- A configuration whose exclusion set is `{"ex"}` and whose defaults are
`recent_count = 0`, `age_threshold_days = 0`, with no overrides. -/
def cfgEx : Config := ⟨["ex"], 0, 0, fun _ => none, fun _ => none⟩

/-- A configuration with an empty exclusion set, defaults
`recent_count = 0`, `age_threshold_days = 0`, no overrides. -/
def cfgNil : Config := ⟨[], 0, 0, fun _ => none, fun _ => none⟩

/-- A registry whose catalog lists only the excluded repository `ex`,
which reports no tags and whose directory exists on disk. -/
def regEx : Registry :=
  ⟨some ["ex"], fun _ => some [], fun _ _ => none, fun _ _ => none,
    fun _ _ => 500, true, fun _ => true⟩

/-- A registry whose catalog endpoint answers with a non-success status. -/
def regNoCatalog : Registry :=
  ⟨none, fun _ => some [], fun _ _ => none, fun _ _ => none,
    fun _ _ => 0, true, fun _ => true⟩

/-- A registry with one repository `r` holding one stale tag `t`
(created 2024-01-01T10:00:00Z) whose deletion request is answered 500. -/
def regRej : Registry :=
  ⟨some ["r"], fun _ => some ["t"], fun _ _ => some ("dg", "cd"),
    fun _ _ => some (some "2024-01-01T10:00:00Z"), fun _ _ => 500, true,
    fun _ => false⟩

/-- A registry with one repository `r` holding one tag `t` whose config
blob carries an unparseable `created` string. -/
def regRaise : Registry :=
  ⟨some ["r"], fun _ => some ["t"], fun _ _ => some ("dg", "cd"),
    fun _ _ => some (some "garbage"), fun _ _ => 202, true, fun _ => false⟩

/-- A registry with one repository `r` whose tags listing (and every other
per-repository fetch) answers with a non-success status. -/
def regUnitFail : Registry :=
  ⟨some ["r"], fun _ => none, fun _ _ => none, fun _ _ => none,
    fun _ _ => 0, true, fun _ => false⟩

/-- A registry with one repository `r`, one tag `t`, a usable manifest and
a failing config-blob fetch. -/
def regBlobDown : Registry :=
  ⟨some ["r"], fun _ => some ["t"], fun _ _ => some ("dg", "cd"),
    fun _ _ => none, fun _ _ => 0, true, fun _ => false⟩

/-- `C2`: a record whose creation time is at or after the threshold
`now - age_threshold_days` is never marked for deletion, protected or not:
the deletion test at line 162 is strictly `creation_date < threshold_date`. -/
theorem creation_at_or_after_threshold_never_deleted
    (details : List TagDetail) (rc : Nat) (thr : Int)
    (d : RetentionDecision) (hd : d ∈ retentionPlan details rc thr)
    (h : thr ≤ d.creation) : d.delete = false := by
  rcases List.mem_map.mp hd with ⟨x, _, rfl⟩
  simp only
  split
  · rfl
  · simp only [decide_eq_false_iff_not, not_lt]
    simpa using h

/-- Witness for `C2`, at the boundary case the claim singles out:
`recent_count = 0`, `age_threshold_days = 0` (so the threshold equals `now`)
and a record created exactly at `now` is kept. -/
theorem creation_at_or_after_threshold_never_deleted_witness :
    ⟨"a", 0, "dg", false⟩ ∈ retentionPlan [⟨"a", 0, "dg"⟩] 0 0 ∧
      (⟨"a", 0, "dg", false⟩ : RetentionDecision).delete = false := by
  refine ⟨by decide, ?_⟩
  exact creation_at_or_after_threshold_never_deleted [⟨"a", 0, "dg"⟩] 0 0
    ⟨"a", 0, "dg", false⟩ (by decide) (by decide)

/-- `C3`: when the input records carry pairwise-distinct tag values, the
protected tags and the tags subjected to the deletion check are disjoint,
and together they list every input tag exactly once (a permutation of the
input tag list). -/
theorem retention_partitions_tags
    (details : List TagDetail) (rc : Nat)
    (hdist : (details.map TagDetail.tag).Pairwise (· ≠ ·)) :
    (∀ t, t ∈ protectedTags details rc → t ∉ eligibleForDeletionTags details rc) ∧
      (protectedTags details rc ++ eligibleForDeletionTags details rc).Perm
        (details.map TagDetail.tag) := by
  have hperm : (sortDetails details).Perm details :=
    List.perm_insertionSort _ details
  have hperm' : ((sortDetails details).map TagDetail.tag).Perm
      (details.map TagDetail.tag) := hperm.map _
  have hdist' : ((sortDetails details).map TagDetail.tag).Pairwise (· ≠ ·) :=
    (hperm'.pairwise_iff fun h => Ne.symm h).mpr hdist
  constructor
  · intro t ht hte
    rcases List.mem_map.mp hte with ⟨x, hx, rfl⟩
    rcases List.mem_filter.mp hx with ⟨_, hcond⟩
    simp only [Bool.not_eq_true', decide_eq_false_iff_not] at hcond
    exact hcond ht
  · -- split the sorted list at `rc`
    have hsplit : sortDetails details =
        (sortDetails details).take rc ++ (sortDetails details).drop rc :=
      (List.take_append_drop rc (sortDetails details)).symm
    -- distinctness across the split, at the level of tags
    have hdist2 : (((sortDetails details).take rc).map TagDetail.tag ++
        ((sortDetails details).drop rc).map TagDetail.tag).Pairwise (· ≠ ·) := by
      rw [← List.map_append, ← hsplit]; exact hdist'
    have hcross := (List.pairwise_append.mp hdist2).2.2
    -- the filter drops exactly the first `rc` entries
    have hfil : (sortDetails details).filter
        (fun x => !(decide (x.tag ∈ protectedTags details rc))) =
        (sortDetails details).drop rc := by
      conv_lhs => rw [hsplit]
      rw [List.filter_append]
      have h1 : ((sortDetails details).take rc).filter
          (fun x => !(decide (x.tag ∈ protectedTags details rc))) = [] := by
        apply List.filter_eq_nil_iff.mpr
        intro x hx
        simp only [Bool.not_eq_true', decide_eq_false_iff_not, Decidable.not_not]
        exact List.mem_map.mpr ⟨x, hx, rfl⟩
      have h2 : ((sortDetails details).drop rc).filter
          (fun x => !(decide (x.tag ∈ protectedTags details rc))) =
          (sortDetails details).drop rc := by
        apply List.filter_eq_self.mpr
        intro x hx
        simp only [Bool.not_eq_true', decide_eq_false_iff_not]
        intro hmem
        rcases List.mem_map.mp hmem with ⟨y, hy, hyx⟩
        exact hcross y.tag (List.mem_map.mpr ⟨y, hy, rfl⟩)
          x.tag (List.mem_map.mpr ⟨x, hx, rfl⟩) hyx
      rw [h1, h2, List.nil_append]
    have : protectedTags details rc ++ eligibleForDeletionTags details rc =
        (sortDetails details).map TagDetail.tag := by
      unfold eligibleForDeletionTags
      rw [hfil]
      unfold protectedTags recentTags
      rw [← List.map_append, ← hsplit]
    rw [this]
    exact hperm'

/-- Witness for `C3` at a concrete input with distinct tags. -/
theorem retention_partitions_tags_witness :
    (∀ t, t ∈ protectedTags [⟨"a", 5, "da"⟩, ⟨"b", 9, "db"⟩] 1 →
        t ∉ eligibleForDeletionTags [⟨"a", 5, "da"⟩, ⟨"b", 9, "db"⟩] 1) ∧
      (protectedTags [⟨"a", 5, "da"⟩, ⟨"b", 9, "db"⟩] 1 ++
        eligibleForDeletionTags [⟨"a", 5, "da"⟩, ⟨"b", 9, "db"⟩] 1).Perm
        ([⟨"a", 5, "da"⟩, ⟨"b", 9, "db"⟩].map TagDetail.tag) :=
  retention_partitions_tags [⟨"a", 5, "da"⟩, ⟨"b", 9, "db"⟩] 1 (by decide)

/-- `C4`: on records `A` (40 days old), `B` (10 days old), `C` (1 day old)
with `recent_count = 1`, `age_threshold_days = 20` and `now = 0`
(times in microseconds relative to `now`), the decision protects exactly
`C`, keeps `B`, and marks exactly `A` for deletion. -/
theorem retention_concrete_example :
    retentionPlan
        [⟨"A", -3456000000000, "dA"⟩, ⟨"B", -864000000000, "dB"⟩,
          ⟨"C", -86400000000, "dC"⟩] 1 (-1728000000000) =
      [⟨"C", -86400000000, "dC", false⟩, ⟨"B", -864000000000, "dB", false⟩,
        ⟨"A", -3456000000000, "dA", true⟩] ∧
    protectedTags
        [⟨"A", -3456000000000, "dA"⟩, ⟨"B", -864000000000, "dB"⟩,
          ⟨"C", -86400000000, "dC"⟩] 1 = ["C"] := by
  constructor <;> rfl

/-! ### Helper lemmas for the timestamp theorems -/

theorem digitChar_toNat {k : Nat} (h : k < 10) : (digitChar k).toNat = 48 + k := by
  interval_cases k <;> rfl

theorem digitChar_isDigit {k : Nat} (h : k < 10) : (digitChar k).isDigit = true := by
  interval_cases k <;> decide

theorem digitChar_ne_colon {k : Nat} (h : k < 10) : (digitChar k == ':') = false := by
  interval_cases k <;> decide

theorem parse2_pad2 {n : Nat} (h : n ≤ 99) (rest : List Char) :
    parse2 (pad2 n ++ rest) = some (n, rest) := by
  have h1 : n / 10 < 10 := by omega
  have h2 : n % 10 < 10 := by omega
  simp [pad2, parse2, digitChar_isDigit h1, digitChar_isDigit h2,
    digitChar_toNat h1, digitChar_toNat h2]
  omega

theorem parse4_pad4 {n : Nat} (h : n ≤ 9999) (rest : List Char) :
    parse4 (pad4 n ++ rest) = some (n, rest) := by
  have h1 : n / 1000 < 10 := by omega
  have h2 : n / 100 % 10 < 10 := by omega
  have h3 : n / 10 % 10 < 10 := by omega
  have h4 : n % 10 < 10 := by omega
  simp [pad4, parse4, digitChar_isDigit h1, digitChar_isDigit h2,
    digitChar_isDigit h3, digitChar_isDigit h4,
    digitChar_toNat h1, digitChar_toNat h2, digitChar_toNat h3, digitChar_toNat h4]
  omega

theorem parseTime_iso {hh mi ss : Nat} (hhh : hh ≤ 99) (hmi : mi ≤ 99)
    (hss : ss ≤ 99) (rest : List Char) :
    parseTime (pad2 hh ++ ':' :: (pad2 mi ++ ':' :: (pad2 ss ++ rest))) =
      parseSecTail hh mi ss rest := by
  simp [parseTime, parse2_pad2 hhh, parse2_pad2 hmi, parse2_pad2 hss]

theorem fromisoChars_isoBasic {y mo d hh mi ss : Nat}
    (hy1 : 1 ≤ y) (hy : y ≤ 9999) (hmo1 : 1 ≤ mo) (hmo : mo ≤ 12)
    (hd1 : 1 ≤ d) (hd : d ≤ daysInMonth y mo)
    (hhh : hh ≤ 99) (hmi : mi ≤ 99) (hss : ss ≤ 99) (rest : List Char) :
    fromisoChars (isoBasicChars y mo d hh mi ss ++ rest) =
      (parseSecTail hh mi ss rest).map fun t =>
        ⟨y, mo, d, t.1, t.2.1, t.2.2.1, t.2.2.2.1, t.2.2.2.2⟩ := by
  have hdd : d ≤ 99 := by
    have : daysInMonth y mo ≤ 31 := by
      unfold daysInMonth
      split
      · split <;> omega
      · split <;> omega
    omega
  simp only [isoBasicChars, List.append_assoc, List.cons_append]
  simp [fromisoChars, parse4_pad4 hy, parse2_pad2 (by omega : mo ≤ 99),
    parse2_pad2 hdd, parseTime_iso hhh hmi hss,
    if_pos (⟨hy1, hmo1, hmo, hd1, hd⟩ : 1 ≤ y ∧ 1 ≤ mo ∧ mo ≤ 12 ∧ 1 ≤ d ∧ d ≤ daysInMonth y mo)]

theorem fixOffsetRev_not_colon {m c d2 d1 p : Char} (rest : List Char)
    (h : (c == ':') = false) :
    fixOffsetRev (m :: c :: d2 :: d1 :: p :: rest) =
      m :: c :: d2 :: d1 :: p :: rest := by
  simp [fixOffsetRev, h]

theorem fixOffsetRev_not_digit {m c d2 d1 p : Char} (rest : List Char)
    (h : m.isDigit = false) :
    fixOffsetRev (m :: c :: d2 :: d1 :: p :: rest) =
      m :: c :: d2 :: d1 :: p :: rest := by
  simp [fixOffsetRev, h]

theorem fixOffsetRev_fires {m d2 d1 : Char} (rest : List Char)
    (hm : m.isDigit = true) (hd2 : d2.isDigit = true) (hd1 : d1.isDigit = true) :
    fixOffsetRev (m :: ':' :: d2 :: d1 :: '+' :: rest) =
      m :: '0' :: d2 :: d1 :: '+' :: rest := by
  simp [fixOffsetRev, hm, hd2, hd1]

theorem reverse_isoBasic (y mo d hh mi ss : Nat) :
    (isoBasicChars y mo d hh mi ss).reverse =
      digitChar (ss % 10) :: digitChar (ss / 10) :: ':' ::
        digitChar (mi % 10) :: digitChar (mi / 10) :: ':' ::
          digitChar (hh % 10) :: digitChar (hh / 10) :: 'T' ::
            digitChar (d % 10) :: digitChar (d / 10) :: '-' ::
              digitChar (mo % 10) :: digitChar (mo / 10) :: '-' ::
                digitChar (y % 10) :: digitChar (y / 10 % 10) ::
                  digitChar (y / 100 % 10) :: [digitChar (y / 1000)] := by
  simp [isoBasicChars, pad2, pad4]

theorem fixOffsetChars_isoBasic (y mo d hh mi ss : Nat) (hss : ss ≤ 99) :
    fixOffsetChars (isoBasicChars y mo d hh mi ss) =
      isoBasicChars y mo d hh mi ss := by
  have h2 : ss / 10 < 10 := by omega
  rw [fixOffsetChars, reverse_isoBasic,
    fixOffsetRev_not_colon _ (digitChar_ne_colon h2), ← reverse_isoBasic,
    List.reverse_reverse]

/-- `C5` (amended): what the normalization of lines 84-86 actually does.
A well-formed timestamp ending in `Z` has the `Z` dropped, parses as a
naive datetime and is interpreted as UTC; but a timestamp whose timezone
offset carries the malformed single-trailing-digit minute component
(`+HH:M`) is NOT corrected: the unconditional drop of the final character
leaves a dangling `+HH:`, the fix-up pattern no longer matches, and
parsing raises (`none`). -/
theorem created_zulu_utc_and_single_digit_minute_raises
    (y mo d hh mi ss : Nat)
    (hy1 : 1 ≤ y) (hy : y ≤ 9999) (hmo1 : 1 ≤ mo) (hmo : mo ≤ 12)
    (hd1 : 1 ≤ d) (hd : d ≤ daysInMonth y mo)
    (hh23 : hh ≤ 23) (hmi59 : mi ≤ 59) (hss59 : ss ≤ 59) :
    parseCreatedChars (isoBasicChars y mo d hh mi ss ++ ['Z']) =
        some ⟨y, mo, d, hh, mi, ss, 0, some 0⟩ ∧
      ∀ oh m1 : Nat, oh ≤ 99 → m1 < 10 →
        parseCreatedChars (isoBasicChars y mo d hh mi ss ++
          '+' :: (pad2 oh ++ [':', digitChar m1])) = none := by
  have hchain := fun rest => fromisoChars_isoBasic hy1 hy hmo1 hmo hd1 hd
    (by omega : hh ≤ 99) (by omega : mi ≤ 99) (by omega : ss ≤ 99) rest
  constructor
  · unfold parseCreatedChars
    rw [List.dropLast_concat, fixOffsetChars_isoBasic y mo d hh mi ss (by omega)]
    have h0 := hchain []
    rw [List.append_nil] at h0
    rw [h0]
    have hsec : parseSecTail hh mi ss [] = some (hh, mi, ss, 0, none) := by
      simp [parseSecTail, finishTime, parseOffset, hh23, hmi59, hss59]
    rw [hsec]
    simp
  · intro oh m1 hoh hm1
    unfold parseCreatedChars
    have hdrop : (isoBasicChars y mo d hh mi ss ++
        '+' :: (pad2 oh ++ [':', digitChar m1])).dropLast =
        isoBasicChars y mo d hh mi ss ++ '+' :: (pad2 oh ++ [':']) := by
      have h1 : isoBasicChars y mo d hh mi ss ++
          '+' :: (pad2 oh ++ [':', digitChar m1]) =
          (isoBasicChars y mo d hh mi ss ++ '+' :: (pad2 oh ++ [':'])) ++
            [digitChar m1] := by simp
      rw [h1, List.dropLast_concat]
    rw [hdrop]
    have hrev : (isoBasicChars y mo d hh mi ss ++
        '+' :: (pad2 oh ++ [':'])).reverse =
        ':' :: digitChar (oh % 10) :: digitChar (oh / 10) :: '+' ::
          (isoBasicChars y mo d hh mi ss).reverse := by
      simp [pad2]
    have hfix : fixOffsetChars (isoBasicChars y mo d hh mi ss ++
        '+' :: (pad2 oh ++ [':'])) =
        isoBasicChars y mo d hh mi ss ++ '+' :: (pad2 oh ++ [':']) := by
      rw [fixOffsetChars, reverse_isoBasic] at *
      rw [hrev, fixOffsetRev_not_digit _ (by decide : (':').isDigit = false),
        ← hrev, List.reverse_reverse]
    rw [hfix, hchain ('+' :: (pad2 oh ++ [':']))]
    have hpo : parseOffsetTail 1 (pad2 oh ++ [':']) = none := by
      unfold parseOffsetTail
      rw [parse2_pad2 hoh]
      rfl
    have hsec : parseSecTail hh mi ss ('+' :: (pad2 oh ++ [':'])) = none := by
      simp [parseSecTail, finishTime, parseOffset, hpo]
    rw [hsec]
    rfl

/-- `C10` (amended): the normalization unconditionally drops the final
character before the fix-up, so a well-formed timestamp ending in a
standard two-digit offset minute `+HH:M1M2` is rewritten to `+HH0M1` and
parses to the offset `HH` hours and `M1` minutes (for example `+05:30`
becomes `+0503`, five hours three minutes) — which differs from the
original offset unless both minute digits are zero.  (Strings ending in a
single-digit offset minute are not parsed at all, and strings whose offset
minute is `00` also survive with their original offset; see the
accompanying counterexample.) -/
theorem created_two_digit_offset_minute_rewritten
    (y mo d hh mi ss oh m1 m2 : Nat)
    (hy1 : 1 ≤ y) (hy : y ≤ 9999) (hmo1 : 1 ≤ mo) (hmo : mo ≤ 12)
    (hd1 : 1 ≤ d) (hd : d ≤ daysInMonth y mo)
    (hh23 : hh ≤ 23) (hmi59 : mi ≤ 59) (hss59 : ss ≤ 59)
    (hoh : oh ≤ 23) (hm1 : m1 < 10) (hm2 : m2 < 10) :
    parseCreatedChars (isoBasicChars y mo d hh mi ss ++
        '+' :: (pad2 oh ++ ':' :: [digitChar m1, digitChar m2])) =
      some ⟨y, mo, d, hh, mi, ss, 0, some ((oh : Int) * 60 + m1)⟩ := by
  have hchain := fromisoChars_isoBasic hy1 hy hmo1 hmo hd1 hd
    (by omega : hh ≤ 99) (by omega : mi ≤ 99) (by omega : ss ≤ 99)
  unfold parseCreatedChars
  have hdrop : (isoBasicChars y mo d hh mi ss ++
      '+' :: (pad2 oh ++ ':' :: [digitChar m1, digitChar m2])).dropLast =
      isoBasicChars y mo d hh mi ss ++ '+' :: (pad2 oh ++ [':', digitChar m1]) := by
    have h1 : isoBasicChars y mo d hh mi ss ++
        '+' :: (pad2 oh ++ ':' :: [digitChar m1, digitChar m2]) =
        (isoBasicChars y mo d hh mi ss ++ '+' :: (pad2 oh ++ [':', digitChar m1]))
          ++ [digitChar m2] := by simp
    rw [h1, List.dropLast_concat]
  rw [hdrop]
  have hrev : (isoBasicChars y mo d hh mi ss ++
      '+' :: (pad2 oh ++ [':', digitChar m1])).reverse =
      digitChar m1 :: ':' :: digitChar (oh % 10) :: digitChar (oh / 10) :: '+' ::
        (isoBasicChars y mo d hh mi ss).reverse := by
    simp [pad2]
  have hfix : fixOffsetChars (isoBasicChars y mo d hh mi ss ++
      '+' :: (pad2 oh ++ [':', digitChar m1])) =
      isoBasicChars y mo d hh mi ss ++ '+' :: (pad2 oh ++ ['0', digitChar m1]) := by
    rw [fixOffsetChars, hrev,
      fixOffsetRev_fires _ (digitChar_isDigit hm1)
        (digitChar_isDigit (by omega : oh % 10 < 10))
        (digitChar_isDigit (by omega : oh / 10 < 10))]
    simp [pad2]
  rw [hfix, hchain ('+' :: (pad2 oh ++ ['0', digitChar m1]))]
  have hpo : parseOffsetTail 1 (pad2 oh ++ ['0', digitChar m1]) =
      some ((oh : Int) * 60 + m1) := by
    unfold parseOffsetTail
    rw [parse2_pad2 (by omega : oh ≤ 99)]
    have hp2 : parse2 ['0', digitChar m1] = some (m1, []) := by
      simp [parse2, digitChar_isDigit hm1, digitChar_toNat hm1]
    simp [hp2, hoh, Nat.le_of_lt_succ, (by omega : m1 ≤ 59)]
  have hsec : parseSecTail hh mi ss ('+' :: (pad2 oh ++ ['0', digitChar m1])) =
      some (hh, mi, ss, 0, some ((oh : Int) * 60 + m1)) := by
    simp [parseSecTail, finishTime, parseOffset, hpo, hh23, hmi59, hss59]
  rw [hsec]
  rfl

/-- `C5` (counterexample): the timestamp `2024-01-01T10:00:00+05:3`
carries the malformed single-trailing-digit offset-minute pattern, yet the
resolver fails to parse it (a raised `ValueError`, modelled by `none`)
instead of correcting it to the intended offset. -/
theorem single_digit_minute_timestamp_raises :
    endsWithSingleDigitMinute "2024-01-01T10:00:00+05:3" = true ∧
      parseCreatedDate "2024-01-01T10:00:00+05:3" = none := by decide

/-- Witness for the amended `C5`, instantiated at
`2024-01-01T10:00:00Z` (parsed as UTC) and at the single-digit-minute
offset `+05:3` (parse failure). -/
theorem created_zulu_utc_and_single_digit_minute_raises_witness :
    parseCreatedChars (isoBasicChars 2024 1 1 10 0 0 ++ ['Z']) =
        some ⟨2024, 1, 1, 10, 0, 0, 0, some 0⟩ ∧
      parseCreatedChars (isoBasicChars 2024 1 1 10 0 0 ++
        '+' :: (pad2 5 ++ [':', digitChar 3])) = none := by
  have h := created_zulu_utc_and_single_digit_minute_raises 2024 1 1 10 0 0
    (by decide) (by decide) (by decide) (by decide) (by decide) (by decide)
    (by decide) (by decide) (by decide)
  exact ⟨h.1, h.2 5 3 (by decide) (by decide)⟩

/-- `C10` (counterexample): `2024-01-01T10:00:00+05:00` ends neither in
`Z` nor in the malformed single-digit-minute pattern, yet the pipeline
parses it with its original offset (+05:00, i.e. 300 minutes — the same
value `datetime.fromisoformat` would give the untouched string), refuting
the claim that only those two classes of strings keep their offset. -/
theorem zero_minute_offset_survives_pipeline :
    fromisoChars ("2024-01-01T10:00:00+05:00").data =
        some ⟨2024, 1, 1, 10, 0, 0, 0, some 300⟩ ∧
      parseCreatedDate "2024-01-01T10:00:00+05:00" =
        some ⟨2024, 1, 1, 10, 0, 0, 0, some 300⟩ ∧
      endsWithZ "2024-01-01T10:00:00+05:00" = false ∧
      endsWithSingleDigitMinute "2024-01-01T10:00:00+05:00" = false := by
  decide

/-- Witness for the amended `C10`: `…+05:30` is parsed as offset 303
minutes (five hours three minutes), not five hours thirty minutes. -/
theorem created_two_digit_offset_minute_rewritten_witness :
    parseCreatedChars (isoBasicChars 2024 1 1 10 0 0 ++
        '+' :: (pad2 5 ++ ':' :: [digitChar 3, digitChar 0])) =
      some ⟨2024, 1, 1, 10, 0, 0, 0, some 303⟩ :=
  created_two_digit_offset_minute_rewritten 2024 1 1 10 0 0 5 3 0
    (by decide) (by decide) (by decide) (by decide) (by decide) (by decide)
    (by decide) (by decide) (by decide) (by decide) (by decide) (by decide)

/-- `C1` (counterexample): with `ex` in the exclusion set, a run whose
catalog lists `ex` still issues a tags-list fetch for `ex` — and even
removes its directory — during the orphan sweep
(`remove_empty_repositories`, lines 109-122, performs no exclusion
check). -/
theorem excluded_repo_fetched_in_sweep :
    "ex" ∈ cfgEx.exclude ∧
      Event.fetchTags "ex" ∈ mainRun cfgEx regEx 0 ∧
      Event.removeDir "ex" ∈ mainRun cfgEx regEx 0 := by decide

/-- `C1` (amended): during per-repository retention processing an excluded
repository triggers no fetch or delete call at all (`process_repository`
returns at line 127 with an empty trace); the orphan sweep, however,
issues a tags-list fetch for every repository in the catalog, excluded or
not. -/
theorem excluded_repo_no_calls_in_processing
    (cfg : Config) (reg : Registry) (now : Int) (repo : String)
    (h : repo ∈ cfg.exclude) :
    process_repository cfg reg now repo = (.ok 0, []) ∧
      ∀ repos, repo ∈ repos → Event.fetchTags repo ∈ sweepRepos reg repos := by
  constructor
  · unfold process_repository
    rw [if_pos h]
  · intro repos hmem
    induction repos with
    | nil => cases hmem
    | cons r rs ih =>
      rcases List.mem_cons.mp hmem with rfl | hmem2
      · simp [sweepRepos, fetch_image_tags]
      · simp only [sweepRepos, List.mem_append]
        exact Or.inr (ih hmem2)

/-- Witness for the amended `C1`: the excluded repository `ex`. -/
theorem excluded_repo_no_calls_in_processing_witness :
    process_repository cfgEx regEx 0 "ex" = (.ok 0, []) ∧
      Event.fetchTags "ex" ∈ sweepRepos regEx ["ex"] := by
  have h := excluded_repo_no_calls_in_processing cfgEx regEx 0 "ex" (by decide)
  exact ⟨h.1, h.2 ["ex"] (by decide)⟩

/-- `C6` (counterexample): a non-success response on the catalog listing
is fatal to the entire run — `raise_for_status` (line 53) raises, `main`'s
catch-all absorbs it, and no repository processing, garbage collection or
orphan sweep happens at all, contradicting "never fatal to the rest of the
run" for catalog fetch failures. -/
theorem catalog_fetch_failure_fatal :
    regNoCatalog.catalogResp = none ∧
      mainRun cfgNil regNoCatalog 0 = [Event.fetchCatalog] ∧
      Event.gc ∉ mainRun cfgNil regNoCatalog 0 := by decide

/-- `C6` (amended): a non-success response on a tags, manifest or blob
fetch skips only the affected unit (that repository or that tag) and the
run continues — in particular garbage collection still runs when the
catalog listing succeeded and no repository raised; a catalog-listing
failure, by contrast, aborts the remaining run. -/
theorem unit_fetch_failures_not_fatal
    (cfg : Config) (reg : Registry) (now : Int) (repo t : String)
    (ts : List String) (repos : List String) :
    (reg.tagsResp repo = none → repo ∉ cfg.exclude →
      process_repository cfg reg now repo = (.ok 0, [.fetchTags repo])) ∧
    (reg.manifestResp repo t = none →
      resolveTags reg repo (t :: ts) =
        ((resolveTags reg repo ts).1,
          .fetchManifest repo t :: (resolveTags reg repo ts).2)) ∧
    (∀ dgst cd, reg.manifestResp repo t = some (dgst, cd) →
      ¬(dgst = "" ∨ cd = "") → reg.blobResp repo cd = none →
      resolveTags reg repo (t :: ts) =
        ((resolveTags reg repo ts).1,
          .fetchManifest repo t :: .fetchBlob repo cd ::
            (resolveTags reg repo ts).2)) ∧
    (reg.catalogResp = some repos → (processAll cfg reg now repos).1 = .ok () →
      Event.gc ∈ mainRun cfg reg now) := by
  refine ⟨?_, ?_, ?_, ?_⟩
  · intro htags hexcl
    unfold process_repository
    rw [if_neg hexcl]
    simp [fetch_image_tags, htags]
  · intro hman
    conv_lhs => rw [resolveTags, hman]
  · intro dgst cd hman hne hblob
    conv_lhs => rw [resolveTags, hman]
    simp only [if_neg hne]
    simp [fetch_creation_date, hblob]
  · intro hcat hok
    unfold mainRun fetch_repositories
    rw [hcat]
    simp only
    rcases hpa : processAll cfg reg now repos with ⟨res, e1⟩
    rw [hpa] at hok
    simp at hok
    subst hok
    simp only
    refine List.mem_append.mpr (Or.inl (List.mem_append.mpr (Or.inr ?_)))
    unfold run_garbage_collection
    split <;> simp

/-- Witness for the amended `C6`: a failed tags listing skips the
repository, a failed manifest fetch and a failed blob fetch skip the tag,
and garbage collection still runs. -/
theorem unit_fetch_failures_not_fatal_witness :
    process_repository cfgNil regUnitFail 0 "r" = (.ok 0, [.fetchTags "r"]) ∧
      resolveTags regUnitFail "r" ["t"] =
        ((resolveTags regUnitFail "r" []).1,
          .fetchManifest "r" "t" :: (resolveTags regUnitFail "r" []).2) ∧
      resolveTags regBlobDown "r" ["t"] =
        ((resolveTags regBlobDown "r" []).1,
          .fetchManifest "r" "t" :: .fetchBlob "r" "cd" ::
            (resolveTags regBlobDown "r" []).2) ∧
      Event.gc ∈ mainRun cfgNil regUnitFail 0 := by
  have h1 := unit_fetch_failures_not_fatal cfgNil regUnitFail 0 "r" "t" [] ["r"]
  have h2 := unit_fetch_failures_not_fatal cfgNil regBlobDown 0 "r" "t" [] ["r"]
  exact ⟨h1.1 rfl (by decide), h1.2.1 rfl,
    h2.2.2.1 "dg" "cd" rfl (by decide) rfl, h1.2.2.2 rfl rfl⟩

/-- `C7` (counterexample): in `regRej` the only tag of `r` is stale and
its deletion request is answered 500; yet `process_repository` returns
`deleted_count = 1` (the counter at line 164 increments after every
attempt, regardless of status) and emits no log event at all for the
rejection (`delete_image`, lines 89-94, logs only on 202) — contradicting
"the rejection is logged" and "the tag is counted as not-deleted". -/
theorem rejected_delete_counted_and_unlogged :
    regRej.deleteStatus "r" "dg" = 500 ∧
      process_repository cfgNil regRej 2000000000000000 "r" =
        (.ok 1, [.fetchTags "r", .fetchManifest "r" "t", .fetchBlob "r" "cd",
          .deleteManifest "r" "t" "dg"]) := by
  exact ⟨rfl, rfl⟩

/-- `C7` (amended): a deletion answered with a status other than 202 is
silently ignored — no log entry is written for it, and the tag is still
counted in `deleted_count`; only a 202 response produces the success log.
Processing continues over the remaining decisions: `deleted_count` is the
number of delete-marked entries independent of any response status, every
delete-marked entry gets its `DELETE` issued, and a success is logged for
exactly the delete-marked entries whose response is 202. -/
theorem delete_rejections_silent_counted_and_nonblocking
    (reg : Registry) (repo : String) (plan : List RetentionDecision) :
    (deleteLoop reg repo plan).1 =
        (plan.filter (fun d => d.delete)).length ∧
      (∀ d ∈ plan, d.delete = true →
        Event.deleteManifest repo d.tag d.digest ∈ (deleteLoop reg repo plan).2) ∧
      (∀ t dg, Event.logDeleted repo t dg ∈ (deleteLoop reg repo plan).2 →
        reg.deleteStatus repo dg = 202) ∧
      (∀ d ∈ plan, d.delete = true → reg.deleteStatus repo d.digest = 202 →
        Event.logDeleted repo d.tag d.digest ∈ (deleteLoop reg repo plan).2) := by
  induction plan with
  | nil => exact ⟨rfl, by simp, by simp [deleteLoop], by simp⟩
  | cons d ds ih =>
    obtain ⟨ih1, ih2, ih3, ih4⟩ := ih
    refine ⟨?_, ?_, ?_, ?_⟩
    · by_cases hdel : d.delete = true
      · simp [deleteLoop, hdel, ih1]
      · simp [deleteLoop, hdel, ih1, Bool.eq_false_iff.mpr hdel]
    · intro x hx hxdel
      rcases List.mem_cons.mp hx with rfl | hx2
      · simp [deleteLoop, hxdel]
      · have := ih2 x hx2 hxdel
        by_cases hdel : d.delete = true <;>
          simp [deleteLoop, hdel, this]
    · intro t dg hmem
      by_cases hdel : d.delete = true
      · simp only [deleteLoop, hdel, if_true] at hmem
        rcases List.mem_cons.mp hmem with heq | hmem2
        · cases heq
        · rcases List.mem_append.mp hmem2 with hin | htail
          · by_cases hst : reg.deleteStatus repo d.digest = 202
            · rw [if_pos hst] at hin
              rcases List.mem_singleton.mp hin with heq2
              injection heq2 with h0 h1 h2
              subst h2
              exact hst
            · rw [if_neg hst] at hin
              cases hin
          · exact ih3 t dg htail
      · simp only [deleteLoop, hdel, if_false, Bool.false_eq_true] at hmem
        exact ih3 t dg hmem
    · intro x hx hxdel hst
      rcases List.mem_cons.mp hx with rfl | hx2
      · simp [deleteLoop, hxdel, hst]
      · have := ih4 x hx2 hxdel hst
        by_cases hdel : d.delete = true <;>
          simp [deleteLoop, hdel, this]

/-- Witness for the amended `C7`: a two-entry plan whose first deletion is
rejected (500) and whose second is accepted (202). -/
theorem delete_rejections_silent_counted_and_nonblocking_witness :
    (deleteLoop
        ⟨some ["r"], fun _ => some [], fun _ _ => none, fun _ _ => none,
          fun _ dg => if dg = "d2" then 202 else 500, true, fun _ => false⟩
        "r" [⟨"t1", 0, "d1", true⟩, ⟨"t2", 0, "d2", true⟩]).1 = 2 ∧
      Event.deleteManifest "r" "t2" "d2" ∈
        (deleteLoop
          ⟨some ["r"], fun _ => some [], fun _ _ => none, fun _ _ => none,
            fun _ dg => if dg = "d2" then 202 else 500, true, fun _ => false⟩
          "r" [⟨"t1", 0, "d1", true⟩, ⟨"t2", 0, "d2", true⟩]).2 ∧
      Event.logDeleted "r" "t2" "d2" ∈
        (deleteLoop
          ⟨some ["r"], fun _ => some [], fun _ _ => none, fun _ _ => none,
            fun _ dg => if dg = "d2" then 202 else 500, true, fun _ => false⟩
          "r" [⟨"t1", 0, "d1", true⟩, ⟨"t2", 0, "d2", true⟩]).2 := by
  have h := delete_rejections_silent_counted_and_nonblocking
    ⟨some ["r"], fun _ => some [], fun _ _ => none, fun _ _ => none,
      fun _ dg => if dg = "d2" then 202 else 500, true, fun _ => false⟩
    "r" [⟨"t1", 0, "d1", true⟩, ⟨"t2", 0, "d2", true⟩]
  refine ⟨h.1, ?_, ?_⟩
  · exact h.2.1 ⟨"t2", 0, "d2", true⟩ (by decide) rfl
  · exact h.2.2.2 ⟨"t2", 0, "d2", true⟩ (by decide) rfl (by decide)

theorem gc_not_in_deleteLoop (reg : Registry) (repo : String)
    (plan : List RetentionDecision) :
    Event.gc ∉ (deleteLoop reg repo plan).2 := by
  induction plan with
  | nil => simp [deleteLoop]
  | cons d ds ih =>
    by_cases hdel : d.delete = true
    · simp only [deleteLoop, hdel, if_true, List.mem_cons, List.mem_append]
      push_neg
      refine ⟨by simp, ?_, ih⟩
      split <;> simp
    · simpa [deleteLoop, hdel] using ih

theorem gc_not_in_resolveTags (reg : Registry) (repo : String)
    (ts : List String) :
    Event.gc ∉ (resolveTags reg repo ts).2 := by
  induction ts with
  | nil => simp [resolveTags]
  | cons t ts ih =>
    cases hm : reg.manifestResp repo t with
    | none => simp [resolveTags, hm, ih]
    | some pr =>
      obtain ⟨dgst, cd⟩ := pr
      by_cases hne : dgst = "" ∨ cd = ""
      · simp [resolveTags, hm, hne, ih]
      · cases hb : reg.blobResp repo cd with
        | none => simp [resolveTags, hm, hne, fetch_creation_date, hb, ih]
        | some ob =>
          cases ob with
          | none => simp [resolveTags, hm, hne, fetch_creation_date, hb, ih]
          | some s =>
            by_cases hs : s = ""
            · simp [resolveTags, hm, hne, fetch_creation_date, hb, hs, ih]
            · cases hp : parseCreatedDate s with
              | none => simp [resolveTags, hm, hne, fetch_creation_date, hb, hs, hp, ih]
              | some dt =>
                simp [resolveTags, hm, hne, fetch_creation_date, hb, hs, hp, ih]

theorem gc_not_in_process (cfg : Config) (reg : Registry) (now : Int)
    (repo : String) :
    Event.gc ∉ (process_repository cfg reg now repo).2 := by
  unfold process_repository
  by_cases hex : repo ∈ cfg.exclude
  · simp [hex]
  · rw [if_neg hex]
    cases htr : reg.tagsResp repo with
    | none => simp [fetch_image_tags, htr]
    | some ts =>
      by_cases hts : ts = []
      · simp [fetch_image_tags, htr, hts]
      · have he2 := gc_not_in_resolveTags reg repo ts
        rcases hr : resolveTags reg repo ts with ⟨res, e2⟩
        rw [hr] at he2
        cases res with
        | error er => simp [fetch_image_tags, htr, hts, hr, he2]
        | ok details =>
          by_cases hdet : details = []
          · simp [fetch_image_tags, htr, hts, hr, hdet, he2]
          · simp [fetch_image_tags, htr, hts, hr, hdet, he2,
              gc_not_in_deleteLoop reg repo]

theorem gc_not_in_processAll (cfg : Config) (reg : Registry) (now : Int)
    (repos : List String) :
    Event.gc ∉ (processAll cfg reg now repos).2 := by
  induction repos with
  | nil => simp [processAll]
  | cons r rs ih =>
    rcases hp : process_repository cfg reg now r with ⟨res, e⟩
    have he : Event.gc ∉ e := by
      have := gc_not_in_process cfg reg now r
      rw [hp] at this
      exact this
    cases res with
    | error er => simp [processAll, hp, he]
    | ok n => simp [processAll, hp, he, ih]

theorem gc_not_in_sweepRepos (reg : Registry) (repos : List String) :
    Event.gc ∉ sweepRepos reg repos := by
  induction repos with
  | nil => simp [sweepRepos]
  | cons r rs ih =>
    simp only [sweepRepos, List.mem_append, not_or]
    refine ⟨⟨by simp [fetch_image_tags], ?_⟩, ih⟩
    split
    · split <;> simp
    · simp

theorem gc_not_in_sweep (reg : Registry) :
    Event.gc ∉ (remove_empty_repositories reg).2 := by
  unfold remove_empty_repositories fetch_repositories
  cases reg.catalogResp with
  | none => simp
  | some repos => simp [gc_not_in_sweepRepos reg repos]

/-- `C8` (counterexample): in a run where the catalog succeeds but a
repository raises (its config blob carries the unparseable `created`
string "garbage", so `datetime.fromisoformat` raises out of
`process_repository` into `main`'s catch-all), garbage collection is never
triggered — so GC is not triggered exactly once in every run. -/
theorem gc_skipped_when_processing_raises :
    regRaise.catalogResp = some ["r"] ∧
      Event.gc ∉ mainRun cfgNil regRaise 0 := by decide

/-- `C8` (amended): in every run in which the catalog listing succeeds and
every repository is processed without a raised exception, garbage
collection is triggered exactly once, after all repository processing and
before the orphan sweep; a garbage-collection failure is logged
(`run_garbage_collection` catches it internally) and does not prevent the
sweep from running. -/
theorem gc_once_after_processing_before_sweep
    (cfg : Config) (reg : Registry) (now : Int) (repos : List String)
    (hcat : reg.catalogResp = some repos)
    (hok : (processAll cfg reg now repos).1 = .ok ()) :
    mainRun cfg reg now =
        [Event.fetchCatalog] ++ (processAll cfg reg now repos).2 ++
          run_garbage_collection reg ++ (remove_empty_repositories reg).2 ∧
      (mainRun cfg reg now).count Event.gc = 1 ∧
      (reg.gcOk = false →
        Event.logGcFailed ∈ mainRun cfg reg now ∧
          Event.fetchCatalog ∈ (remove_empty_repositories reg).2) := by
  have hpe := gc_not_in_processAll cfg reg now repos
  have hmain : mainRun cfg reg now =
      [Event.fetchCatalog] ++ (processAll cfg reg now repos).2 ++
        run_garbage_collection reg ++ (remove_empty_repositories reg).2 := by
    unfold mainRun fetch_repositories
    rw [hcat]
    simp only
    rcases hpa : processAll cfg reg now repos with ⟨res, e1⟩
    rw [hpa] at hok
    simp only at hok
    subst hok
    rfl
  refine ⟨hmain, ?_, ?_⟩
  · rw [hmain]
    simp only [List.count_append]
    rw [List.count_eq_zero.mpr hpe,
      List.count_eq_zero.mpr (gc_not_in_sweep reg)]
    unfold run_garbage_collection
    split <;> simp
  · intro hgc
    constructor
    · rw [hmain]
      simp [run_garbage_collection, hgc]
    · unfold remove_empty_repositories fetch_repositories
      rw [hcat]
      simp

/-- Witness for the amended `C8`: a one-repository registry with no tags
and a failing garbage collection; GC happens once and the sweep still
runs. -/
theorem gc_once_after_processing_before_sweep_witness :
    (mainRun cfgNil
        ⟨some ["r"], fun _ => some [], fun _ _ => none, fun _ _ => none,
          fun _ _ => 0, false, fun _ => false⟩ 0).count Event.gc = 1 ∧
      Event.logGcFailed ∈ mainRun cfgNil
        ⟨some ["r"], fun _ => some [], fun _ _ => none, fun _ _ => none,
          fun _ _ => 0, false, fun _ => false⟩ 0 ∧
      Event.fetchCatalog ∈ (remove_empty_repositories
        ⟨some ["r"], fun _ => some [], fun _ _ => none, fun _ _ => none,
          fun _ _ => 0, false, fun _ => false⟩).2 := by
  have h := gc_once_after_processing_before_sweep cfgNil
    ⟨some ["r"], fun _ => some [], fun _ _ => none, fun _ _ => none,
      fun _ _ => 0, false, fun _ => false⟩ 0 ["r"] rfl rfl
  exact ⟨h.2.1, (h.2.2 rfl).1, (h.2.2 rfl).2⟩

/-- `C9`: in the orphan sweep, a repository whose tags-list request
returns a non-success status gets the same empty tag list as one that
genuinely has zero tags (`fetch_image_tags` returns `[]` for both, lines
58-59), so a single transient listing failure makes the sweep forcibly
remove the repository's existing on-disk directory, indistinguishably
from true emptiness. -/
theorem failed_tag_listing_swept_as_empty
    (reg : Registry) (r : String) (repos : List String)
    (hresp : reg.tagsResp r = none ∨ reg.tagsResp r = some [])
    (hin : r ∈ repos) (hdir : reg.dirExists r = true) :
    fetch_image_tags reg r = ([], [.fetchTags r]) ∧
      Event.removeDir r ∈ sweepRepos reg repos := by
  have hfi : fetch_image_tags reg r = ([], [.fetchTags r]) := by
    rcases hresp with h | h <;> simp [fetch_image_tags, h]
  refine ⟨hfi, ?_⟩
  induction repos with
  | nil => cases hin
  | cons x xs ih =>
    rcases List.mem_cons.mp hin with rfl | h2
    · simp only [sweepRepos, hfi]
      simp [hdir]
    · simp only [sweepRepos, List.mem_append]
      exact Or.inr (ih h2)

/-- Witness for `C9`: a repository `r` with a failed tags listing and an
existing directory is removed by the sweep. -/
theorem failed_tag_listing_swept_as_empty_witness :
    fetch_image_tags
        ⟨some ["r"], fun _ => none, fun _ _ => none, fun _ _ => none,
          fun _ _ => 0, true, fun _ => true⟩ "r" = ([], [.fetchTags "r"]) ∧
      Event.removeDir "r" ∈ sweepRepos
        ⟨some ["r"], fun _ => none, fun _ _ => none, fun _ _ => none,
          fun _ _ => 0, true, fun _ => true⟩ ["r"] :=
  failed_tag_listing_swept_as_empty
    ⟨some ["r"], fun _ => none, fun _ _ => none, fun _ _ => none,
      fun _ _ => 0, true, fun _ => true⟩ "r" ["r"]
    (Or.inl rfl) (by decide) rfl
